import Mathlib

/-!
Verification development for the `shapespresso` core subsystems:
the ShExC ↔ ShExJ schema converter with comment preservation
(`shapespresso/parser/parser.py`) and the structural-similarity metrics
(`shapespresso/metrics/similarity.py`).

Python functions are shallowly embedded as executable Lean definitions.
Strings are Lean `String`s; Python `None` becomes `Option.none`; functions
that can raise exceptions return `Option`/`Except`; external collaborators
(the grammar engine, the JSON serializer, the file system) are passed in as
explicit function parameters, mirroring the interface contracts of the spec.
-/

namespace Shapespresso

/-! ### The tree data model (`ShapeNode`, similarity.py lines 84-130) -/

/-- Embedding of the Python class `ShapeNode`: a label together with an
ordered list of children.  `ShapeNode(label, children)` in the source. -/
inductive ShapeNode : Type where
  | mk (label : String) (children : List ShapeNode)

mutual
/-- Boolean structural equality of trees (labels and child lists agree). -/
def ShapeNode.beq : ShapeNode → ShapeNode → Bool
  | .mk l cs, .mk l' cs' => l == l' && ShapeNode.beqList cs cs'

/-- Boolean structural equality of forests. -/
def ShapeNode.beqList : List ShapeNode → List ShapeNode → Bool
  | [], [] => true
  | t :: ts, u :: us => ShapeNode.beq t u && ShapeNode.beqList ts us
  | [], _ :: _ => false
  | _ :: _, [] => false
end

mutual
theorem ShapeNode.beq_iff : ∀ t u : ShapeNode, ShapeNode.beq t u = true ↔ t = u
  | .mk l cs, .mk l' cs' => by
    rw [ShapeNode.beq]
    simp only [Bool.and_eq_true, beq_iff_eq, ShapeNode.mk.injEq]
    exact and_congr Iff.rfl (ShapeNode.beqList_iff cs cs')

theorem ShapeNode.beqList_iff : ∀ ts us : List ShapeNode,
    ShapeNode.beqList ts us = true ↔ ts = us
  | [], [] => by rw [ShapeNode.beqList]; simp
  | t :: ts, u :: us => by
    rw [ShapeNode.beqList]
    simp only [Bool.and_eq_true, List.cons.injEq]
    exact and_congr (ShapeNode.beq_iff t u) (ShapeNode.beqList_iff ts us)
  | [], _ :: _ => by rw [ShapeNode.beqList]; simp
  | _ :: _, [] => by rw [ShapeNode.beqList]; simp
end

instance ShapeNode.instDecidableEq : DecidableEq ShapeNode := fun t u =>
  decidable_of_iff _ (ShapeNode.beq_iff t u)

/-- `ShapeNode.get_label` (`node.label`). -/
def ShapeNode.get_label : ShapeNode → String
  | .mk l _ => l

/-- `ShapeNode.get_children` (`node.children`). -/
def ShapeNode.get_children : ShapeNode → List ShapeNode
  | .mk _ cs => cs

/-- Embedding of `ShapeNode.__len__`, which returns `len(self.children)` —
the number of children of this node, not the number of nodes of the tree. -/
def ShapeNode.len (t : ShapeNode) : Nat :=
  t.get_children.length

mutual
/-- Total number of nodes of a tree (the node itself plus all descendants).
Used to state size-related properties of the builders. -/
def ShapeNode.size : ShapeNode → Nat
  | .mk _ cs => 1 + ShapeNode.sizeList cs

/-- Total number of nodes of a forest. -/
def ShapeNode.sizeList : List ShapeNode → Nat
  | [] => 0
  | t :: ts => ShapeNode.size t + ShapeNode.sizeList ts
end

@[simp] theorem ShapeNode.size_mk (l : String) (cs : List ShapeNode) :
    ShapeNode.size (.mk l cs) = 1 + ShapeNode.sizeList cs := by
  rw [ShapeNode.size]

@[simp] theorem ShapeNode.sizeList_nil : ShapeNode.sizeList [] = 0 := by
  rw [ShapeNode.sizeList]

@[simp] theorem ShapeNode.sizeList_cons (t : ShapeNode) (ts : List ShapeNode) :
    ShapeNode.sizeList (t :: ts) = t.size + ShapeNode.sizeList ts := by
  rw [ShapeNode.sizeList]

theorem ShapeNode.sizeList_append (xs ys : List ShapeNode) :
    ShapeNode.sizeList (xs ++ ys) = ShapeNode.sizeList xs + ShapeNode.sizeList ys := by
  induction xs with
  | nil => simp
  | cons t ts ih => simp [ih]; omega

theorem ShapeNode.size_pos (t : ShapeNode) : 0 < t.size := by
  cases t; simp

/-! ### Schema data model (ShExJ JSON objects, spec §3 / §6)

A parsed schema is a JSON object with keys `start` and `shapes`; each shape
has an `id` and optionally an `expression`, which optionally has an ordered
`expressions` list of triple constraints.  The two `in`-checks of the Python
builders (`"expression" in shape`, `"expressions" in shape["expression"]`)
become two `Option` layers. -/

/-- Modelled from the spec: a triple constraint as consumed by the label
helpers `get_predicate_node_label`, `get_node_constraint_node_label` and
`get_cardinality_node_label` of `shapespresso.metrics.utils` (that module is
not part of the sources at hand).  Per spec §4.4/§4.5 each constraint
resolves to a predicate display label — undeterminable (Python falsy, e.g.
for disjunctive `OneOf` constraints) is `none` — plus a node-constraint
display label and a cardinality display label, both plain strings. -/
structure TripleConstraint where
  predicateLabel : Option String
  nodeConstraintLabel : String
  cardinalityLabel : String
deriving DecidableEq

/-- A shape definition: its `id` plus the two optional layers
(`expression`, then `expressions`). -/
structure ShapeDefinition where
  id : String
  expression : Option (Option (List TripleConstraint))
deriving DecidableEq

/-- A ShExJ schema object: `start` shape id and ordered `shapes` list. -/
structure Schema where
  start : String
  shapes : List ShapeDefinition
deriving DecidableEq

/-- Modelled from the spec: `get_predicate_node_label` of
`shapespresso.metrics.utils` — the predicate display label of a triple
constraint, `none` when it cannot be determined (the Python function then
returns a falsy value and the tree builder skips the constraint). -/
def get_predicate_node_label (tc : TripleConstraint) : Option String :=
  tc.predicateLabel

/-- Modelled from the spec: `get_node_constraint_node_label` of
`shapespresso.metrics.utils` — the single display label of the constraint's
value type (shape reference, node kind or value set), spec §4.4. -/
def get_node_constraint_node_label (tc : TripleConstraint) : String :=
  tc.nodeConstraintLabel

/-- Modelled from the spec: `get_cardinality_node_label` of
`shapespresso.metrics.utils` — the rendered cardinality label, spec §4.4. -/
def get_cardinality_node_label (tc : TripleConstraint) : String :=
  tc.cardinalityLabel

/-- Modelled from the spec: `get_shapes_dict` of `shapespresso.metrics.utils`
— the mapping from shape id to shape definition (spec §6: shapes are "keyed
by `id`"), embedded as lookup of the first shape with the given id. -/
def get_shapes_dict (schema : Schema) (shapeId : String) : Option ShapeDefinition :=
  schema.shapes.find? (fun s => s.id = shapeId)

/-- The constraint sequence of a shape, `[]` when either optional layer is
absent (the builders then produce a root-only result, spec §4.4/§4.5). -/
def tripleConstraintsOf (shape : ShapeDefinition) : List TripleConstraint :=
  match shape.expression with
  | some (some tcs) => tcs
  | _ => []

/-! ### Schema Tree Builder (`transform_schema_to_tree`, similarity.py 133-179) -/

/-- The 3-node chain `predicate → nodeConstraint → cardinality` built for one
triple constraint (similarity.py lines 165-170). -/
def constraintChain (p n c : String) : ShapeNode :=
  .mk p [.mk n [.mk c []]]

/-- The chain built for a triple constraint, `none` when the predicate label
is undeterminable and the constraint is skipped (`if not predicate_node:
continue`). -/
def constraintNodeOf (tc : TripleConstraint) : Option ShapeNode :=
  (get_predicate_node_label tc).map fun p =>
    constraintChain p (get_node_constraint_node_label tc) (get_cardinality_node_label tc)

/-- Embedding of `transform_schema_to_tree`: resolve `shape_id` in the shapes
dict, falling back (`except KeyError`) to the id of the first shape; then
append one 3-node chain per triple constraint whose predicate label is
determinable.  Returns `none` exactly when the Python code would escape with
an uncaught exception (requested id absent and `schema["shapes"]` empty, so
`schema["shapes"][0]` raises `IndexError`). -/
def transform_schema_to_tree (schema : Schema) (shapeId : String) : Option ShapeNode :=
  let resolved : Option (String × ShapeDefinition) :=
    match get_shapes_dict schema shapeId with
    | some shape => some (shapeId, shape)
    | none =>
      match schema.shapes with
      | [] => none
      | first :: _ => some (first.id, first)
  resolved.map fun (sid, shape) =>
    .mk sid ((tripleConstraintsOf shape).filterMap constraintNodeOf)

/-! ### Schema Graph Builder (`transform_schema_to_graph`, similarity.py 41-81)

NetworkX keys nodes by value: `add_node` with an existing key is a no-op
(merging by label, spec §3), so the node set is a `Finset`.  The predicate
label may be Python `None`, a key distinct from every string, hence node
keys are `Option String` (`some` for strings).  Edges are keyed by their
endpoint pair and carry the f-string label `"{source} {target}"`. -/

/-- Python `str()` of a node key, as interpolated into edge labels. -/
def nodeKeyStr : Option String → String
  | some s => s
  | none => "None"

/-- A NetworkX-style directed graph over label-keyed nodes. -/
structure SchemaGraph where
  nodes : Finset (Option String)
  edges : Finset (Option String × Option String × String)
deriving DecidableEq

/-- `add_edge` also inserts both endpoints (NetworkX semantics); in the
source both endpoints are always explicitly added first, so this agrees. -/
def SchemaGraph.addEdge (g : SchemaGraph) (u v : Option String) : SchemaGraph :=
  { nodes := insert u (insert v g.nodes),
    edges := insert (u, v, s!"{nodeKeyStr u} {nodeKeyStr v}") g.edges }

/-- `add_node` (idempotent on the key). -/
def SchemaGraph.addNode (g : SchemaGraph) (u : Option String) : SchemaGraph :=
  { g with nodes := insert u g.nodes }

/-- The loop body for one triple constraint (similarity.py lines 59-73):
add the predicate, node-constraint and cardinality nodes and the three-hop
chain of edges from the start shape id. -/
def addConstraintToGraph (startId : Option String) (g : SchemaGraph)
    (tc : TripleConstraint) : SchemaGraph :=
  let p := get_predicate_node_label tc
  let n : Option String := some (get_node_constraint_node_label tc)
  let c : Option String := some (get_cardinality_node_label tc)
  ((((((g.addNode p).addEdge startId p).addNode n).addEdge p n).addNode c).addEdge n c)

/-- Embedding of `transform_schema_to_graph`: root node for the start shape
id, then the per-constraint chains.  `none` when `shapes[start_shape_id]`
raises `KeyError` (start id absent from the shapes dict). -/
def transform_schema_to_graph (schema : Schema) : Option (String × SchemaGraph) :=
  let startId := schema.start
  let g0 : SchemaGraph := { nodes := {some startId}, edges := ∅ }
  (get_shapes_dict schema startId).map fun startShape =>
    (startId, (tripleConstraintsOf startShape).foldl (addConstraintToGraph (some startId)) g0)

/-! ### Canonical Sibling Orderer
(`ShapeNode.sort_children` and the key lambdas of `compute_tree_edit_distance`,
similarity.py lines 125-130 and 230-232) -/

/-- The labels of a node's children (`[c.label for c in tree.children]`). -/
def childLabels (t : ShapeNode) : List String :=
  t.get_children.map ShapeNode.get_label

/-- The sort key of `compute_tree_edit_distance`:
`lambda node: (node.label not in L, node.label)` where `L` is the list of
the *other tree's root children's* labels, captured once by the closure.
Python tuples compare lexicographically (`False < True`), embedded as the
lexicographic product order. -/
def tedKey (L : List String) (n : ShapeNode) : Bool ×ₗ String :=
  toLex (decide (n.get_label ∉ L), n.get_label)

/-- The total preorder on nodes induced by `tedKey` — what Python's stable
ascending `list.sort(key=...)` orders by. -/
def tedKeyLe (L : List String) (a b : ShapeNode) : Prop :=
  tedKey L a ≤ tedKey L b

instance (L : List String) : DecidableRel (tedKeyLe L) := fun a b =>
  inferInstanceAs (Decidable (tedKey L a ≤ tedKey L b))

mutual
/-- Embedding of `ShapeNode.sort_children` with the closure key of
`compute_tree_edit_distance`: stable-sort the children by `tedKey L` and
recursively sort every deeper level with the *same* key (the Python closure
captures one fixed label list `L`).  The source sorts a level before
recursing into it; since the key reads only node labels, which the recursion
preserves, sorting after the (stable) recursion yields the identical tree,
and this order makes the recursion structural. -/
def ShapeNode.sort_children (L : List String) : ShapeNode → ShapeNode
  | .mk l cs => .mk l (List.insertionSort (tedKeyLe L) (ShapeNode.sortChildrenList L cs))

/-- `sort_children` mapped over a forest. -/
def ShapeNode.sortChildrenList (L : List String) : List ShapeNode → List ShapeNode
  | [] => []
  | t :: ts => ShapeNode.sort_children L t :: ShapeNode.sortChildrenList L ts
end

/-! ### Tree edit distance (`zss.simple_distance`, spec §4.7) -/

/-- Modelled from the spec: the external `zss.simple_distance` collaborator
— "unit-cost Zhang–Shasha-style edit distance over ordered labeled trees
(insert cost 1, delete cost 1, relabel cost 0 if labels equal else 1)"
(spec §4.7) — as the standard recursive ordered-forest edit distance:
delete the leftmost root, insert the leftmost root, or match the two
leftmost roots and recur into their child forests. -/
def fdist : List ShapeNode → List ShapeNode → Nat
  | [], [] => 0
  | .mk _ cs :: F, [] => fdist (cs ++ F) [] + 1
  | [], .mk _ ds :: G => fdist [] (ds ++ G) + 1
  | .mk a cs :: F, .mk b ds :: G =>
      min (fdist (cs ++ F) (.mk b ds :: G) + 1)
        (min (fdist (.mk a cs :: F) (ds ++ G) + 1)
          (fdist cs ds + fdist F G + (if a = b then 0 else 1)))
termination_by F G => ShapeNode.sizeList F + ShapeNode.sizeList G
decreasing_by
  all_goals simp [ShapeNode.sizeList_append]
  all_goals omega

/-- Modelled from the spec: `simple_distance(tree_1, tree_2)` — the
tree edit distance of the two singleton forests. -/
def simple_distance (t u : ShapeNode) : Nat :=
  fdist [t] [u]

/-- Embedding of `compute_tree_edit_distance` (similarity.py 220-236):
canonically sort `tree_1` using `tree_2`'s root-children labels, then
`tree_2` using the (already sorted) `tree_1`'s root-children labels, then
take the Zhang–Shasha distance. -/
def compute_tree_edit_distance (t1 t2 : ShapeNode) : Nat :=
  let s1 := t1.sort_children (childLabels t2)
  let s2 := t2.sort_children (childLabels s1)
  simple_distance s1 s2

/-! ### Evaluator (`evaluate_ted`, similarity.py 239-297) -/

/-- Embedding of the normalization of similarity.py line 285:
`ted / (3 * len(true_schema_tree))`, where `len` is `ShapeNode.__len__`,
i.e. the number of children of the ground-truth tree's root.  Arithmetic is
in `ℚ` (Python floats' exact intent); the divisor is as in the source. -/
def normalized_ted (trueTree : ShapeNode) (ted : ℚ) : ℚ :=
  ted / (3 * (ShapeNode.len trueTree : ℚ))

/-! ### String helpers

Embeddings of the Python `str` operations used by parser.py, written over
`List Char` so they evaluate inside the kernel. -/

/-- `text.split(sep)` for a one-character separator: always at least one
piece, `"".split(sep) == [""]`. -/
def splitOnChar (sep : Char) : List Char → List (List Char)
  | [] => [[]]
  | c :: rest =>
    match splitOnChar sep rest with
    | p :: ps => if c = sep then [] :: p :: ps else (c :: p) :: ps
    | [] => if c = sep then [[], []] else [[c]]

/-- `text.split("\n")` producing `String` pieces. -/
def pySplit (sep : Char) (s : String) : List String :=
  (splitOnChar sep s.data).map fun l => String.mk l

/-- `text.splitlines()` for `\n`-delimited text (spec §6): like
`split("\n")` except that the empty text yields `[]` and a trailing
newline does not produce a final empty piece. -/
def pySplitlines (s : String) : List String :=
  match s.data with
  | [] => []
  | cs =>
    let parts := splitOnChar '\n' cs
    (if cs.getLast? = some '\n' then parts.dropLast else parts).map fun l => String.mk l

/-- Python's default whitespace class for `str.strip` (the characters that
can occur inside a line here: space, tab, CR). -/
def isPyWS (c : Char) : Bool :=
  c.isWhitespace

/-- `s.lstrip()`. -/
def lstripWS (s : String) : String :=
  String.mk (s.data.dropWhile isPyWS)

/-- `s.rstrip()`. -/
def rstripWS (s : String) : String :=
  String.mk ((s.data.reverse.dropWhile isPyWS).reverse)

/-- `s.strip()`. -/
def stripWS (s : String) : String :=
  lstripWS (rstripWS s)

/-- `s.rstrip(' ;')`: drop trailing spaces and semicolons. -/
def rstripSemiSpace (s : String) : String :=
  String.mk ((s.data.reverse.dropWhile (fun c => c = ' ' || c = ';')).reverse)

/-- `s.startswith(p)`. -/
def pyStartsWith (s p : String) : Bool :=
  p.data.isPrefixOf s.data

/-! ### parser.py: comment extraction (lines 22-61, 192-234) -/

/-- Embedding of `position_start_line`: index of the first line starting
with `start` or `<`, else 0. -/
def position_start_line (text : String) : Nat :=
  match (pySplit '\n' text).findIdx? (fun l => pyStartsWith l "start" || pyStartsWith l "<") with
  | some i => i
  | none => 0

/-- The two extraction modes of `locate_comment` (its Python `case` string
argument) and the `type` field of a comment record. -/
inductive CommentKind : Type where
  | general
  | constraint
deriving DecidableEq

/-- First truthy (non-empty) line, as in the scan loops of `locate_comment`. -/
def firstNonEmptyLine (ls : List String) : Option String :=
  ls.find? (fun l => l ≠ "")

/-- Embedding of `locate_comment`.  Python returns the sentinel `0` when no
suitable line exists; that sentinel is `none` here.  Callers always pass a
non-empty line list whose head contains `#` in the `constraint` case, so the
`line.index('#')` slice is the prefix before the first `#`. -/
def locate_comment (lines : List String) (case : CommentKind) : Option String :=
  match case with
  | .general => firstNonEmptyLine (lines.drop 1)
  | .constraint =>
    match lines with
    | [] => none
    | line :: rest =>
      let pre := String.mk (line.data.takeWhile (fun c => c ≠ '#'))
      if stripWS pre ≠ "" then some (rstripWS pre)
      else firstNonEmptyLine rest

/-- A comment record as produced by `comment_parser_helper`: the comment
text, its kind, and its anchor (`location`), where `none` is the Python
sentinel `0` ("insert at document start"). -/
structure CommentRecord where
  comment : String
  type : CommentKind
  location : Option String
deriving DecidableEq

/-- Embedding of `comment_parser_helper`: classify every line relative to
the schema-start index; full-line comments before it are `general`,
full-line comments and inline `#` comments at or after it are `constraint`. -/
def comment_parser_helper (text : String) : List CommentRecord :=
  let startLineNum := position_start_line text
  let lines := pySplit '\n' text
  lines.enum.filterMap fun (idx, line) =>
    if idx < startLineNum then
      if pyStartsWith (stripWS line) "#" then
        some ⟨line, .general, locate_comment (lines.drop idx) .general⟩
      else none
    else
      if pyStartsWith (stripWS line) "#" then
        some ⟨line, .constraint, locate_comment (lines.drop idx) .constraint⟩
      else if line.data.contains '#' then
        some ⟨String.mk (line.data.dropWhile (fun c => c ≠ '#')), .constraint,
              locate_comment (lines.drop idx) .constraint⟩
      else none

/-! ### parser.py: comment reinsertion (`insert_comments`, lines 237-262) -/

/-- Does a line of the current text match a comment anchor: exactly equal,
or equal after stripping trailing space/`;` (parser.py line 256). -/
def matchesAnchor (line anchor : String) : Bool :=
  line == anchor || rstripSemiSpace line == anchor

/-- The inner `for idx, line ...` scan of `insert_comments`: find the first
line matching the anchor; insert the comment before it (`general`) or append
it inline after two spaces (`constraint`); leave the lines unchanged when no
line matches (the comment is dropped). -/
def insertIntoLines (c : CommentRecord) (loc : String) : List String → List String
  | [] => []
  | line :: rest =>
    if matchesAnchor line loc then
      match c.type with
      | .general => c.comment :: line :: rest
      | .constraint => (rstripWS line ++ "  " ++ lstripWS c.comment) :: rest
    else line :: insertIntoLines c loc rest

/-- One iteration of the comment loop: the sentinel anchor inserts at line 0,
otherwise the anchor is searched for. -/
def insertOneComment (lines : List String) (c : CommentRecord) : List String :=
  match c.location with
  | none => c.comment :: lines
  | some loc => insertIntoLines c loc lines

/-- Embedding of `insert_comments`: split into lines, return the text
unchanged for a falsy comment list (`None` or empty), otherwise process the
records in reverse order and re-join. -/
def insert_comments (text : String) (comments : Option (List CommentRecord)) : String :=
  match comments with
  | none => text
  | some [] => text
  | some cs => String.intercalate "\n" (cs.reverse.foldl insertOneComment (pySplit '\n' text))

/-! ### parser.py: line-stripping recovery and the forward converter
(`remove_lines` lines 64-77, `shexc_to_shexj` lines 80-121) -/

/-- Embedding of `remove_lines`: drop the 1-indexed lines listed in
`removed_lines` and re-join with newlines. -/
def remove_lines (text : String) (removed_lines : List Nat) : String :=
  let lines := pySplitlines text
  String.intercalate "\n"
    (lines.enum.filterMap fun (i, line) => if (i + 1) ∈ removed_lines then none else some line)

/-- Embedding of `base_uri_parser_helper`'s regex
`^[Bb][Aa][Ss][Ee]\s+<(.+)>$` applied to one line: case-insensitive `base`,
one or more whitespace, `<`, a non-empty greedy group, and a final `>`. -/
def matchBaseLine (line : String) : Option String :=
  match line.data with
  | b :: a :: s :: e :: rest =>
    if (b = 'B' || b = 'b') && (a = 'A' || a = 'a') && (s = 'S' || s = 's')
        && (e = 'E' || e = 'e') then
      let afterWs := rest.dropWhile isPyWS
      if afterWs.length < rest.length then
        match afterWs with
        | '<' :: mid =>
          if mid.getLast? = some '>' && mid.length ≥ 2 then
            some (String.mk mid.dropLast)
          else none
        | _ => none
      else none
    else none
  | _ => none

/-- Embedding of `base_uri_parser_helper`: the first line matching the
base-URI pattern yields its captured group, else `None`. -/
def base_uri_parser_helper (text : String) : Option String :=
  (pySplit '\n' text).findSome? matchBaseLine

/-- Modelled from the spec: `extract_prefix_declarations` of
`shapespresso.utils` (not among the sources at hand) — the "base-URI/
namespace scan" of spec §4.1/§6 collecting `PREFIX name: <uri>` declarations
into a prefix → namespace-URI table. -/
def extract_prefix_declarations (text : String) : List (String × String) :=
  (pySplit '\n' text).filterMap fun line =>
    if pyStartsWith line "PREFIX " then
      let rest := (line.data.drop 7).dropWhile isPyWS
      let name := rest.takeWhile (fun c => c ≠ ':')
      match (rest.dropWhile (fun c => c ≠ ':')).drop 1 |>.dropWhile isPyWS with
      | '<' :: uriPart =>
        if uriPart.getLast? = some '>' then
          some (String.mk name, String.mk uriPart.dropLast)
        else none
      | _ => none
    else none

/-- Embedding of `namespaces_parser_helper` on text input: bind every
extracted prefix declaration; the rdflib `NamespaceManager` wrapper is
elided to the binding table it carries. -/
def namespaces_parser_helper (text : String) : List (String × String) :=
  extract_prefix_declarations text

/-- Result of the forward conversion: `ok` carries the serialized schema
text plus the three scans; `failed` is the terminal failure path, where the
source logs and returns `("", None, None, None)` — the condition the spec's
§7 taxonomy names `ParseFailure`/`UnrecoverableParseError`. -/
inductive ConvResult (σ : Type) : Type where
  | ok (shexjText : String) (base : Option String)
      (namespaces : List (String × String)) (comments : List CommentRecord)
  | failed

/-- Embedding of `shexc_to_shexj`, instrumented with the list of texts
passed to the external grammar engine (spec §6: `parse(text) →
(schema-or-null, errors)`; only the `line` field of each error is consumed,
via `list(set(...))` whose order is irrelevant to `remove_lines`
membership).  `asJson` embeds the external `as_json` serializer. -/
def shexc_to_shexjT {σ : Type} (engine : String → Option σ × List Nat)
    (asJson : σ → String) (text : String) : ConvResult σ × List String :=
  let res := engine text
  let schema := res.1
  let errors := res.2
  if schema.isNone && !errors.isEmpty then
    let errorLines := errors.dedup
    let strippedText := remove_lines text errorLines
    match (engine strippedText).1 with
    | some schema2 =>
      (.ok (asJson schema2) (base_uri_parser_helper strippedText)
        (namespaces_parser_helper strippedText) (comment_parser_helper strippedText),
        [text, strippedText])
    | none => (.failed, [text, strippedText])
  else
    match schema with
    | some s =>
      (.ok (asJson s) (base_uri_parser_helper text)
        (namespaces_parser_helper text) (comment_parser_helper text), [text])
    | none => (.failed, [text])

/-- `shexc_to_shexj` proper: the conversion result without the trace. -/
def shexc_to_shexj {σ : Type} (engine : String → Option σ × List Nat)
    (asJson : σ → String) (text : String) : ConvResult σ :=
  (shexc_to_shexjT engine asJson text).1

/-- The texts handed to the grammar engine during one conversion. -/
def engineCallTrace {σ : Type} (engine : String → Option σ × List Nat)
    (asJson : σ → String) (text : String) : List String :=
  (shexc_to_shexjT engine asJson text).2

/-- The `base` component of a conversion result (`none` on failure). -/
def ConvResult.base? {σ : Type} : ConvResult σ → Option (Option String)
  | .ok _ b _ _ => some b
  | .failed => none

/-- The `comments` component of a conversion result (`none` on failure). -/
def ConvResult.comments? {σ : Type} : ConvResult σ → Option (List CommentRecord)
  | .ok _ _ _ cs => some cs
  | .failed => none

/-! ### Evaluator (`evaluate_ted`, similarity.py 239-297)

The file system and the per-class loading/conversion pipeline are abstracted
into two oracles: `trueTree` gives the ground-truth schema tree of a class
(its file is read unconditionally) and `predTree` gives the predicted one,
`none` when the predicted `.shex` file does not exist — the non-fatal skip.
Exceptions (Python `ZeroDivisionError`) are `Except.error`. -/

/-- The per-class body once both trees exist: the raw tree edit distance and
the normalization of line 285 (which divides by zero when the ground-truth
root has no children). -/
def evalClassTed (trueT predT : ShapeNode) : Except String (ℚ × ℚ) :=
  let ted : ℚ := (compute_tree_edit_distance trueT predT : ℚ)
  if trueT.len = 0 then .error "ZeroDivisionError"
  else .ok (ted, normalized_ted trueT ted)

/-- One iteration of the evaluator's class loop: a missing predicted file
is a non-fatal skip, otherwise the distance is computed and accumulated. -/
def evalStep (trueTree : String → ShapeNode) (predTree : String → Option ShapeNode)
    (acc : List ℚ) (cid : String) : Except String (List ℚ) :=
  match predTree cid with
  | none => pure acc
  | some pt => do
    let r ← evalClassTed (trueTree cid) pt
    pure (acc ++ [r.1])

/-- Embedding of `evaluate_ted`: iterate the batch sequentially, skip
classes whose predicted file is missing, accumulate the distances, and
finally report `sum(teds) / len(teds)` — which divides by zero when no
class was compared. -/
def evaluate_ted (classIds : List String) (trueTree : String → ShapeNode)
    (predTree : String → Option ShapeNode) : Except String ℚ := do
  let teds ← classIds.foldlM (evalStep trueTree predTree) []
  if teds.isEmpty then .error "ZeroDivisionError"
  else pure (teds.sum / (teds.length : ℚ))

/-! ### Statement-level predicates and concrete example inputs -/

/-- The shape definition a tree-builder call actually uses: the requested id
when it resolves, else the first declared shape (spec §4.5 fallback). -/
def resolvedShape (schema : Schema) (shapeId : String) : Option ShapeDefinition :=
  match get_shapes_dict schema shapeId with
  | some s => some s
  | none => schema.shapes.head?

/-- Is a tree a 3-node chain (one child, which has one child, which is a
leaf) — the shape each included triple constraint contributes? -/
def isChain3 : ShapeNode → Bool
  | .mk _ [.mk _ [.mk _ []]] => true
  | _ => false

/-- Number of triple constraints of a shape whose predicate label is
determinable (not skipped by the tree builder). -/
def determinableCount (shape : ShapeDefinition) : Nat :=
  ((tripleConstraintsOf shape).filter (fun tc => (get_predicate_node_label tc).isSome)).length

/-- The node-key list a triple constraint contributes to the graph. -/
def tcNodeKeys (tc : TripleConstraint) : List (Option String) :=
  [get_predicate_node_label tc, some (get_node_constraint_node_label tc),
   some (get_cardinality_node_label tc)]

/-- The sibling-ordering property asserted by the spec's Canonical Sibling
Orderer description (spec §4.6), stated for one sibling list: every child
whose label appears among the corresponding other-side children's labels
precedes every child whose label does not. -/
def specMembersFirst (otherLabels : List String) (children : List ShapeNode) : Prop :=
  children.Pairwise (fun x y => x.get_label ∈ otherLabels ∨ y.get_label ∉ otherLabels)

instance (otherLabels : List String) (children : List ShapeNode) :
    Decidable (specMembersFirst otherLabels children) :=
  List.instDecidablePairwise children

mutual
/-- Does every sibling list of a tree (its children, their children, …)
come sorted with respect to the one fixed key `tedKey L`? -/
def allLevelsSortedByKey (L : List String) : ShapeNode → Bool
  | .mk _ cs => decide (cs.Pairwise (tedKeyLe L)) && allLevelsSortedList L cs

/-- `allLevelsSortedByKey` over a forest. -/
def allLevelsSortedList (L : List String) : List ShapeNode → Bool
  | [] => true
  | t :: ts => allLevelsSortedByKey L t && allLevelsSortedList L ts
end

/-- Trivial serializer for `Unit` engine schemas in concrete runs
(`as_json` output of an opaque parsed schema). -/
def asJsonU : Unit → String := fun _ => "{}"

/-- Concrete input text for the recovery-path runs: a base-URI declaration
followed by a shape, whose first line the example engine reports as
erroneous. -/
def exOrigText : String := "BASE <http://ex/b>\n<S> \x7b\n\x7d"

/-- A concrete external grammar engine (spec §6 contract
`parse(text) → (schema-or-null, errors)`): it fails on `exOrigText` tagging
line 1, and succeeds on any other text — in particular on the line-stripped
retry input. -/
def exEngine : String → Option Unit × List Nat :=
  fun s => if s = exOrigText then (none, [1]) else (some (), [])

/-- A concrete engine that fails twice: no schema ever, line-1 errors on the
original text. -/
def exEngineFailTwice : String → Option Unit × List Nat :=
  fun s => if s = exOrigText then (none, [1]) else (none, [])

/-- Concrete tree `A` for the sibling-ordering runs. -/
def exTreeA : ShapeNode := .mk "R" [.mk "X" [.mk "a" [], .mk "X" []]]

/-- Concrete tree `B` for the sibling-ordering runs: its root children's
labels are `["X"]`, while its depth-1 subtree's children's labels are
`["a", "Z"]`. -/
def exTreeB : ShapeNode := .mk "R" [.mk "X" [.mk "a" [], .mk "Z" []]]

/-- Concrete ground-truth schema of the normalized-distance scenario: start
shape `Person` with the single constraint `(knows, IRI, {0,-1})`. -/
def exGtSchema : Schema :=
  ⟨"Person", [⟨"Person", some (some [⟨some "knows", "IRI", "\x7b0,-1\x7d"⟩])⟩]⟩

/-- Concrete predicted schema of the scenario: identical except for the
cardinality label. -/
def exPredSchema : Schema :=
  ⟨"Person", [⟨"Person", some (some [⟨some "knows", "IRI", "\x7b1,1\x7d"⟩])⟩]⟩

/-- Concrete schema whose start shape holds two triple constraints with
identical predicate and node-constraint labels (cardinalities differ). -/
def exMergeSchema : Schema :=
  ⟨"S", [⟨"S", some (some [⟨some "p", "IRI", "\x7b1,1\x7d"⟩, ⟨some "p", "IRI", "\x7b0,-1\x7d"⟩])⟩]⟩

/-- Concrete schema whose start shape holds the merge pair — two fully
identical triple constraints — plus one constraint with an undeterminable
predicate label: the tree builder skips that one while the graph builder
still adds its three node keys. -/
def exNoMergeGainSchema : Schema :=
  ⟨"S", [⟨"S", some (some [⟨some "p", "IRI", "c"⟩, ⟨some "p", "IRI", "c"⟩,
    ⟨none, "A", "B"⟩])⟩]⟩

/-- Concrete schema for the fallback run: one shape `A`, so a request for
the absent id `B` must fall back to `A`. -/
def exFallbackSchema : Schema :=
  ⟨"A", [⟨"A", some (some [⟨some "p", "IRI", "\x7b1,1\x7d"⟩])⟩]⟩

/-- Concrete comment records for the reinserter run. -/
def exGeneralComment : CommentRecord := ⟨"# general", .general, some "<S> \x7b"⟩

/-- A constraint comment anchored at a line that matches only after
stripping trailing `' ;'`. -/
def exConstraintComment : CommentRecord := ⟨"# why", .constraint, some "  p xsd:string"⟩

/-- A comment whose anchor matches no line: it must be dropped. -/
def exDroppedComment : CommentRecord := ⟨"# lost", .general, some "nowhere"⟩

/-- A comment with the start-of-document sentinel anchor. -/
def exSentinelComment : CommentRecord := ⟨"# top", .general, none⟩

instance tedKeyLe_total (L : List String) : IsTotal ShapeNode (tedKeyLe L) :=
  ⟨fun a b => le_total (tedKey L a) (tedKey L b)⟩

instance tedKeyLe_trans (L : List String) : IsTrans ShapeNode (tedKeyLe L) :=
  ⟨fun _ _ _ hab hbc => le_trans hab hbc⟩

/-! ### Helper lemmas about the edit distance and the sibling orderer -/

theorem fdist_symm : ∀ F G, fdist F G = fdist G F := by
  intro F G
  induction F, G using fdist.induct with
  | case1 => rfl
  | case2 l cs F ih => rw [fdist, fdist, ih]
  | case3 l ds G ih => rw [fdist, fdist, ih]
  | case4 a cs F b ds G ih1 ih2 ih3 ih4 =>
    rw [fdist, fdist]
    rw [ih1, ih2, ih3, ih4]
    have : (if a = b then 0 else 1) = (if b = a then 0 else 1) := by
      by_cases h : a = b <;> simp [h, Ne.symm, eq_comm]
    rw [this]
    omega

theorem fdist_eq_zero_iff : ∀ F G, fdist F G = 0 ↔ F = G := by
  intro F G
  induction F, G using fdist.induct with
  | case1 => simp [fdist]
  | case2 l cs F ih => rw [fdist]; simp
  | case3 l ds G ih => rw [fdist]; simp
  | case4 a cs F b ds G ih1 ih2 ih3 ih4 =>
    rw [fdist]
    constructor
    · intro h
      have hcs : fdist cs ds = 0 := by omega
      have hFG : fdist F G = 0 := by omega
      have hab : a = b := by
        by_cases hab : a = b
        · exact hab
        · have h3 : fdist cs ds + fdist F G + (if a = b then 0 else 1) = 0 := by omega
          simp [hab] at h3
      rw [ih3] at hcs
      rw [ih4] at hFG
      simp [hab, hcs, hFG]
    · intro h
      injection h with h1 h2
      injection h1 with ha hc
      subst ha; subst hc; subst h2
      have hcs : fdist cs cs = 0 := (ih3).mpr rfl
      have hFG : fdist F F = 0 := (ih4).mpr rfl
      simp [hcs, hFG]

theorem sort_children_label (L : List String) (t : ShapeNode) :
    (t.sort_children L).get_label = t.get_label := by
  cases t with
  | mk l cs => rw [ShapeNode.sort_children]; rfl

theorem sortChildrenList_labels (L : List String) :
    ∀ cs : List ShapeNode,
      (ShapeNode.sortChildrenList L cs).map ShapeNode.get_label = cs.map ShapeNode.get_label
  | [] => by rw [ShapeNode.sortChildrenList]
  | t :: ts => by
    rw [ShapeNode.sortChildrenList]
    simp [sort_children_label, sortChildrenList_labels L ts]

theorem childLabels_sort_children_perm (L : List String) (t : ShapeNode) :
    (childLabels (t.sort_children L)).Perm (childLabels t) := by
  cases t with
  | mk l cs =>
    rw [ShapeNode.sort_children]
    unfold childLabels ShapeNode.get_children
    have hp : (List.insertionSort (tedKeyLe L) (ShapeNode.sortChildrenList L cs)).Perm
        (ShapeNode.sortChildrenList L cs) := List.perm_insertionSort _ _
    calc ((List.insertionSort (tedKeyLe L) (ShapeNode.sortChildrenList L cs)).map
            ShapeNode.get_label).Perm
          ((ShapeNode.sortChildrenList L cs).map ShapeNode.get_label) := hp.map _
      _ = cs.map ShapeNode.get_label := sortChildrenList_labels L cs

theorem tedKey_congr {L L' : List String} (h : ∀ x, x ∈ L ↔ x ∈ L') (n : ShapeNode) :
    tedKey L n = tedKey L' n := by
  unfold tedKey
  rw [decide_eq_decide.mpr (not_congr (h n.get_label))]

theorem tedKeyLe_congr {L L' : List String} (h : ∀ x, x ∈ L ↔ x ∈ L') (a b : ShapeNode) :
    tedKeyLe L a b ↔ tedKeyLe L' a b := by
  unfold tedKeyLe
  rw [tedKey_congr h, tedKey_congr h]

theorem insertionSort_congr {α : Type} {r r' : α → α → Prop}
    [DecidableRel r] [DecidableRel r'] (h : ∀ a b, r a b ↔ r' a b) :
    ∀ l : List α, List.insertionSort r l = List.insertionSort r' l := by
  intro l
  induction l with
  | nil => rfl
  | cons a l ih =>
    simp only [List.insertionSort, ih]
    generalize List.insertionSort r' l = m
    induction m with
    | nil => rfl
    | cons b m ihm =>
      simp only [List.orderedInsert]
      rw [ihm]
      exact if_congr (h a b) rfl rfl

mutual
theorem sort_children_congr {L L' : List String} (h : ∀ x, x ∈ L ↔ x ∈ L') :
    ∀ t : ShapeNode, t.sort_children L = t.sort_children L'
  | .mk l cs => by
    rw [ShapeNode.sort_children, ShapeNode.sort_children]
    rw [sortChildrenList_congr h cs]
    rw [insertionSort_congr (tedKeyLe_congr h)]

theorem sortChildrenList_congr {L L' : List String} (h : ∀ x, x ∈ L ↔ x ∈ L') :
    ∀ cs : List ShapeNode, ShapeNode.sortChildrenList L cs = ShapeNode.sortChildrenList L' cs
  | [] => by rw [ShapeNode.sortChildrenList, ShapeNode.sortChildrenList]
  | t :: ts => by
    rw [ShapeNode.sortChildrenList, ShapeNode.sortChildrenList]
    rw [sort_children_congr h t, sortChildrenList_congr h ts]
end

/-! ### C8 — tree edit distance symmetry -/

/-- C8: the tree edit distance is symmetric — both the Zhang–Shasha distance
itself (`simple_distance`, with its symmetric unit insert/delete costs and
symmetric relabel cost) and the full `compute_tree_edit_distance` pipeline
including the canonical sibling ordering: for any two trees
`tree_edit_distance(A, B) = tree_edit_distance(B, A)`. -/
theorem tree_edit_distance_symm (A B : ShapeNode) :
    compute_tree_edit_distance A B = compute_tree_edit_distance B A ∧
    simple_distance A B = simple_distance B A := by
  constructor
  · unfold compute_tree_edit_distance simple_distance
    have hmem1 : ∀ x, x ∈ childLabels (A.sort_children (childLabels B)) ↔ x ∈ childLabels A :=
      fun x => (childLabels_sort_children_perm (childLabels B) A).mem_iff
    have hmem2 : ∀ x, x ∈ childLabels (B.sort_children (childLabels A)) ↔ x ∈ childLabels B :=
      fun x => (childLabels_sort_children_perm (childLabels A) B).mem_iff
    show fdist _ _ = fdist _ _
    rw [sort_children_congr hmem1 B, sort_children_congr hmem2 A]
    exact fdist_symm _ _
  · exact fdist_symm [A] [B]

/-! ### C2 — what label set the sibling sort really uses -/

theorem allLevelsSortedList_eq_all (L : List String) :
    ∀ cs : List ShapeNode, allLevelsSortedList L cs = cs.all (allLevelsSortedByKey L)
  | [] => by rw [allLevelsSortedList]; rfl
  | t :: ts => by
    rw [allLevelsSortedList]
    simp [allLevelsSortedList_eq_all L ts]

mutual
theorem sort_children_allLevels (L : List String) :
    ∀ t : ShapeNode, allLevelsSortedByKey L (t.sort_children L) = true
  | .mk l cs => by
    rw [ShapeNode.sort_children, allLevelsSortedByKey]
    have h1 : List.Pairwise (tedKeyLe L)
        (List.insertionSort (tedKeyLe L) (ShapeNode.sortChildrenList L cs)) :=
      List.sorted_insertionSort (tedKeyLe L) (ShapeNode.sortChildrenList L cs)
    have h2 : allLevelsSortedList L
        (List.insertionSort (tedKeyLe L) (ShapeNode.sortChildrenList L cs)) = true := by
      rw [allLevelsSortedList_eq_all]
      rw [List.all_eq_true]
      intro x hx
      exact sortChildrenList_sorted_mem L cs x ((List.mem_insertionSort _).mp hx)
    simp [h1, h2]

theorem sortChildrenList_sorted_mem (L : List String) :
    ∀ (cs : List ShapeNode) (x : ShapeNode), x ∈ ShapeNode.sortChildrenList L cs →
      allLevelsSortedByKey L x = true
  | [], x, hx => by rw [ShapeNode.sortChildrenList] at hx; cases hx
  | t :: ts, x, hx => by
    rw [ShapeNode.sortChildrenList] at hx
    rcases List.mem_cons.mp hx with h | h
    · rw [h]; exact sort_children_allLevels L t
    · exact sortChildrenList_sorted_mem L ts x h
end

/-- C2 counterexample: concrete trees `A`, `B` on which the claim fails.  In
`compute_tree_edit_distance`, `A` is canonicalized as
`A.sort_children (childLabels B)`.  The unique depth-1 subtree of the result
has children ordered `["X", "a"]`, although in the corresponding subtree of
`B` (its unique child, labels `["a", "Z"]`) the label `"X"` does not occur
while `"a"` does — so a non-member precedes a member, violating the claimed
per-subtree pairing rule: the sort used `B`'s root children's labels
(`["X"]`) at that level, not the corresponding subtree's. -/
theorem sibling_sort_counterexample :
    (exTreeA.sort_children (childLabels exTreeB)).get_children
        = [ShapeNode.mk "X" [ShapeNode.mk "X" [], ShapeNode.mk "a" []]] ∧
    exTreeB.get_children = [ShapeNode.mk "X" [ShapeNode.mk "a" [], ShapeNode.mk "Z" []]] ∧
    ¬ specMembersFirst
        (childLabels (ShapeNode.mk "X" [ShapeNode.mk "a" [], ShapeNode.mk "Z" []]))
        (ShapeNode.get_children (ShapeNode.mk "X" [ShapeNode.mk "X" [], ShapeNode.mk "a" []])) := by
  decide

/-- C2 amended: before the edit-distance computation each tree is sorted, at
*every* level, by the one fixed key `(label ∉ L, label)` where `L` is the
*other tree's root children's* labels — a single per-tree label set, not a
per-subtree pairing — and each sorted sibling list is a permutation of the
original (shown here for the root level). -/
theorem sibling_sort_uses_single_root_label_set (A B : ShapeNode) :
    allLevelsSortedByKey (childLabels B) (A.sort_children (childLabels B)) = true ∧
    (childLabels (A.sort_children (childLabels B))).Perm (childLabels A) :=
  ⟨sort_children_allLevels (childLabels B) A,
   childLabels_sort_children_perm (childLabels B) A⟩

/-! ### C3 — the evaluator's normalized distance -/

theorem fdist_nil_nil : fdist [] [] = 0 := by
  rw [fdist]

theorem fdist_le_match (a b : String) (cs ds F G : List ShapeNode) :
    fdist (.mk a cs :: F) (.mk b ds :: G)
      ≤ fdist cs ds + fdist F G + (if a = b then 0 else 1) := by
  rw [fdist]
  exact le_trans (min_le_right _ _) (min_le_right _ _)

theorem fdist_chain_le (s p n c1 c2 : String) :
    fdist [ShapeNode.mk s [constraintChain p n c1]] [ShapeNode.mk s [constraintChain p n c2]]
      ≤ (if c1 = c2 then 0 else 1) := by
  have h3 : fdist [ShapeNode.mk c1 []] [ShapeNode.mk c2 []] ≤ (if c1 = c2 then 0 else 1) := by
    have h := fdist_le_match c1 c2 [] [] [] []
    simpa [fdist_nil_nil] using h
  have h2 : fdist [ShapeNode.mk n [ShapeNode.mk c1 []]] [ShapeNode.mk n [ShapeNode.mk c2 []]]
      ≤ (if c1 = c2 then 0 else 1) := by
    have h := fdist_le_match n n [ShapeNode.mk c1 []] [ShapeNode.mk c2 []] [] []
    simp only [fdist_nil_nil, if_pos rfl, Nat.add_zero] at h
    exact le_trans h h3
  have h1 : fdist [constraintChain p n c1] [constraintChain p n c2]
      ≤ (if c1 = c2 then 0 else 1) := by
    have h := fdist_le_match p p [ShapeNode.mk n [ShapeNode.mk c1 []]]
      [ShapeNode.mk n [ShapeNode.mk c2 []]] [] []
    simp only [fdist_nil_nil, if_pos rfl, Nat.add_zero] at h
    exact le_trans h h2
  have h0 := fdist_le_match s s [constraintChain p n c1] [constraintChain p n c2] [] []
  simp only [fdist_nil_nil, if_pos rfl, Nat.add_zero] at h0
  exact le_trans h0 h1

theorem sort_children_single_chain (L : List String) (s p n c : String) :
    (ShapeNode.mk s [constraintChain p n c]).sort_children L
      = ShapeNode.mk s [constraintChain p n c] := by
  simp [constraintChain, ShapeNode.sort_children, ShapeNode.sortChildrenList]

theorem ted_single_chain (sid p n c1 c2 : String) (h : c1 ≠ c2) :
    compute_tree_edit_distance (ShapeNode.mk sid [constraintChain p n c1])
      (ShapeNode.mk sid [constraintChain p n c2]) = 1 := by
  unfold compute_tree_edit_distance
  show simple_distance _ _ = 1
  rw [sort_children_single_chain, sort_children_single_chain]
  unfold simple_distance
  have hle := fdist_chain_le sid p n c1 c2
  rw [if_neg h] at hle
  have hne : fdist [ShapeNode.mk sid [constraintChain p n c1]]
      [ShapeNode.mk sid [constraintChain p n c2]] ≠ 0 := by
    rw [Ne, fdist_eq_zero_iff]
    intro heq
    apply h
    have := List.head_eq_of_cons_eq heq
    simp only [constraintChain, ShapeNode.mk.injEq, List.cons.injEq, and_true] at this
    exact this.2.2.2
  omega

/-- C3 counterexample: the spec's own scenario — ground-truth and predicted
schemas each with one triple constraint, labels equal except the cardinality
leaf.  The code's tree edit distance is 1, but the normalization of
similarity.py line 285 divides by `3 * len(tree)` where `__len__` counts the
root's *children* (here 1), giving 1/3 — not the claimed 1/9; dividing by 3
times the 4-node tree size would give 1/12, also not 1/9. -/
theorem normalized_ted_counterexample :
    transform_schema_to_tree exGtSchema "Person"
        = some (ShapeNode.mk "Person" [constraintChain "knows" "IRI" "\x7b0,-1\x7d"]) ∧
    transform_schema_to_tree exPredSchema "Person"
        = some (ShapeNode.mk "Person" [constraintChain "knows" "IRI" "\x7b1,1\x7d"]) ∧
    compute_tree_edit_distance (ShapeNode.mk "Person" [constraintChain "knows" "IRI" "\x7b0,-1\x7d"])
        (ShapeNode.mk "Person" [constraintChain "knows" "IRI" "\x7b1,1\x7d"]) = 1 ∧
    normalized_ted (ShapeNode.mk "Person" [constraintChain "knows" "IRI" "\x7b0,-1\x7d"]) 1 = 1/3 ∧
    (1 : ℚ) / (3 * ((ShapeNode.mk "Person" [constraintChain "knows" "IRI" "\x7b0,-1\x7d"]).size : ℚ))
        = 1/12 ∧
    (1/3 : ℚ) ≠ 1/9 := by
  refine ⟨by decide, by decide, ted_single_chain _ _ _ _ _ (by decide), ?_, ?_, by norm_num⟩
  · norm_num [normalized_ted, ShapeNode.len, ShapeNode.get_children, constraintChain]
  · norm_num [constraintChain]

/-- C3 amended: the evaluator's normalized distance is the tree edit
distance divided by 3 times the *number of children of the ground-truth
tree's root* (`ShapeNode.__len__`), not 3 times the tree's node count; for
ground-truth and predicted trees each built from one triple constraint whose
labels agree except for the cardinality leaf, the tree edit distance is 1
and the normalized distance is 1/3. -/
theorem normalized_ted_one_constraint (sid p n c1 c2 : String) (h : c1 ≠ c2) :
    compute_tree_edit_distance (ShapeNode.mk sid [constraintChain p n c1])
        (ShapeNode.mk sid [constraintChain p n c2]) = 1 ∧
    normalized_ted (ShapeNode.mk sid [constraintChain p n c1])
        ((compute_tree_edit_distance (ShapeNode.mk sid [constraintChain p n c1])
          (ShapeNode.mk sid [constraintChain p n c2]) : ℚ)) = 1/3 := by
  have hted := ted_single_chain sid p n c1 c2 h
  refine ⟨hted, ?_⟩
  rw [hted]
  norm_num [normalized_ted, ShapeNode.len, ShapeNode.get_children, constraintChain]

/-- Witness for the amended C3 theorem at concrete labels. -/
theorem normalized_ted_one_constraint_witness :
    ("\x7b0,-1\x7d" : String) ≠ "\x7b1,1\x7d" ∧
    (compute_tree_edit_distance (ShapeNode.mk "S" [constraintChain "p" "IRI" "\x7b0,-1\x7d"])
        (ShapeNode.mk "S" [constraintChain "p" "IRI" "\x7b1,1\x7d"]) = 1 ∧
      normalized_ted (ShapeNode.mk "S" [constraintChain "p" "IRI" "\x7b0,-1\x7d"])
        ((compute_tree_edit_distance (ShapeNode.mk "S" [constraintChain "p" "IRI" "\x7b0,-1\x7d"])
          (ShapeNode.mk "S" [constraintChain "p" "IRI" "\x7b1,1\x7d"]) : ℚ)) = 1/3) :=
  ⟨by decide, normalized_ted_one_constraint "S" "p" "IRI" "\x7b0,-1\x7d" "\x7b1,1\x7d" (by decide)⟩

/-! ### C6 — fallback to the first declared shape -/

/-- C6: for every schema with at least one declared shape and every
requested shape id, if the requested id is absent from the schema's shape
mapping, the tree builder returns exactly the tree it would build for the
first declared shape's id — rooted at that first shape — rather than
failing. -/
theorem tree_builder_fallback (schema : Schema) (shapeId : String)
    (first : ShapeDefinition) (rest : List ShapeDefinition)
    (hshapes : schema.shapes = first :: rest)
    (habsent : get_shapes_dict schema shapeId = none) :
    transform_schema_to_tree schema shapeId = transform_schema_to_tree schema first.id ∧
    ∃ t, transform_schema_to_tree schema shapeId = some t ∧ t.get_label = first.id := by
  have hfirst : get_shapes_dict schema first.id = some first := by
    rw [get_shapes_dict, hshapes]
    simp [List.find?]
  rw [transform_schema_to_tree, transform_schema_to_tree, habsent, hfirst, hshapes]
  exact ⟨rfl, _, rfl, rfl⟩

/-- Witness for C6: requesting the absent id `B` yields the tree of the
first (and only) shape `A`. -/
theorem tree_builder_fallback_witness :
    get_shapes_dict exFallbackSchema "B" = none ∧
    (transform_schema_to_tree exFallbackSchema "B"
        = transform_schema_to_tree exFallbackSchema "A" ∧
      ∃ t, transform_schema_to_tree exFallbackSchema "B" = some t ∧ t.get_label = "A") :=
  ⟨by decide,
   tree_builder_fallback exFallbackSchema "B" ⟨"A", some (some [⟨some "p", "IRI", "\x7b1,1\x7d"⟩])⟩
     [] rfl (by decide)⟩

/-! ### C9 — the tree's 3-node-chain invariant -/

theorem isChain3_constraintChain (p n c : String) :
    isChain3 (constraintChain p n c) = true := by
  rw [constraintChain, isChain3]

theorem length_filterMap_constraintNodeOf :
    ∀ l : List TripleConstraint,
      (l.filterMap constraintNodeOf).length
        = (l.filter (fun tc => (get_predicate_node_label tc).isSome)).length
  | [] => rfl
  | tc :: l => by
    rw [List.filterMap_cons, List.filter_cons]
    cases hp : get_predicate_node_label tc with
    | none =>
      rw [constraintNodeOf, hp]
      simp [hp, length_filterMap_constraintNodeOf l]
    | some p =>
      rw [constraintNodeOf, hp]
      simp [hp, length_filterMap_constraintNodeOf l]

/-- C9: every tree the Schema Tree Builder returns satisfies the shape
invariant — each child of the root is a 3-node chain (one child, whose one
child is a leaf), and the root has exactly one child per triple constraint
of the resolved shape whose predicate label is determinable. -/
theorem tree_builder_chain_invariant (schema : Schema) (shapeId : String) (t : ShapeNode)
    (h : transform_schema_to_tree schema shapeId = some t) :
    (∀ c ∈ t.get_children, isChain3 c = true) ∧
    ∃ shape, resolvedShape schema shapeId = some shape ∧
      t.get_children.length = determinableCount shape := by
  have hbuild : ∃ shape sid, resolvedShape schema shapeId = some shape ∧
      t = ShapeNode.mk sid ((tripleConstraintsOf shape).filterMap constraintNodeOf) := by
    rw [transform_schema_to_tree] at h
    rw [resolvedShape]
    cases hdict : get_shapes_dict schema shapeId with
    | some shape =>
      rw [hdict] at h
      exact ⟨shape, shapeId, rfl, (Option.some_injective _ h).symm⟩
    | none =>
      rw [hdict] at h
      cases hshapes : schema.shapes with
      | nil => rw [hshapes] at h; cases h
      | cons first rest =>
        rw [hshapes] at h
        exact ⟨first, first.id, rfl, (Option.some_injective _ h).symm⟩
  obtain ⟨shape, sid, hres, ht⟩ := hbuild
  subst ht
  constructor
  · intro c hc
    rw [ShapeNode.get_children] at hc
    obtain ⟨tc, _, htc⟩ := List.mem_filterMap.mp hc
    rw [constraintNodeOf] at htc
    obtain ⟨p, _, hp⟩ := Option.map_eq_some'.mp htc
    rw [← hp]
    exact isChain3_constraintChain _ _ _
  · exact ⟨shape, hres, by
      rw [ShapeNode.get_children, determinableCount, length_filterMap_constraintNodeOf]⟩

/-- Witness for C9 at a concrete schema: one determinable constraint, one
3-chain child. -/
theorem tree_builder_chain_invariant_witness :
    transform_schema_to_tree exGtSchema "Person"
        = some (ShapeNode.mk "Person" [constraintChain "knows" "IRI" "\x7b0,-1\x7d"]) ∧
    ((∀ c ∈ (ShapeNode.mk "Person" [constraintChain "knows" "IRI" "\x7b0,-1\x7d"]).get_children,
        isChain3 c = true) ∧
      ∃ shape, resolvedShape exGtSchema "Person" = some shape ∧
        (ShapeNode.mk "Person"
          [constraintChain "knows" "IRI" "\x7b0,-1\x7d"]).get_children.length
            = determinableCount shape) :=
  ⟨by decide,
   tree_builder_chain_invariant exGtSchema "Person"
     (ShapeNode.mk "Person" [constraintChain "knows" "IRI" "\x7b0,-1\x7d"]) (by decide)⟩

/-! ### C10 — aggregation over an all-skipped batch -/

theorem foldlM_evalStep_all_missing (trueTree : String → ShapeNode)
    (predTree : String → Option ShapeNode) :
    ∀ ids : List String, (∀ cid ∈ ids, predTree cid = none) →
      ∀ acc : List ℚ, ids.foldlM (evalStep trueTree predTree) acc = Except.ok acc
  | [], _, acc => rfl
  | cid :: ids, hall, acc => by
    have hcid : predTree cid = none := hall cid (List.mem_cons_self cid ids)
    have hrest : ∀ c ∈ ids, predTree c = none := fun c hc => hall c (List.mem_cons_of_mem _ hc)
    rw [List.foldlM_cons, evalStep, hcid]
    show (Except.ok acc >>= fun b => ids.foldlM (evalStep trueTree predTree) b)
        = Except.ok acc
    rw [show (Except.ok acc >>= fun b => ids.foldlM (evalStep trueTree predTree) b)
        = ids.foldlM (evalStep trueTree predTree) acc from rfl]
    exact foldlM_evalStep_all_missing trueTree predTree ids hrest acc

theorem evaluate_ted_all_missing_error (classIds : List String)
    (trueTree : String → ShapeNode) (predTree : String → Option ShapeNode)
    (hall : ∀ cid ∈ classIds, predTree cid = none) :
    evaluate_ted classIds trueTree predTree = .error "ZeroDivisionError" := by
  rw [evaluate_ted]
  rw [show (do
      let teds ← classIds.foldlM (evalStep trueTree predTree) []
      if teds.isEmpty then (.error "ZeroDivisionError" : Except String ℚ)
      else pure (teds.sum / (teds.length : ℚ)))
    = (classIds.foldlM (evalStep trueTree predTree) [] >>= fun teds =>
      if teds.isEmpty then (.error "ZeroDivisionError" : Except String ℚ)
      else pure (teds.sum / (teds.length : ℚ))) from rfl]
  rw [foldlM_evalStep_all_missing trueTree predTree classIds hall []]
  rfl

/-- C10: when no class of the batch is successfully compared — the batch is
empty or every class's predicted schema file is missing — the evaluator's
final aggregation divides by zero and raises (`ZeroDivisionError`) instead
of reporting a mean; conversely a reported mean implies at least one class
yielded a distance. -/
theorem evaluator_mean_requires_a_distance (classIds : List String)
    (trueTree : String → ShapeNode) (predTree : String → Option ShapeNode) :
    ((∀ cid ∈ classIds, predTree cid = none) →
      evaluate_ted classIds trueTree predTree = .error "ZeroDivisionError") ∧
    (∀ q, evaluate_ted classIds trueTree predTree = .ok q →
      ∃ cid ∈ classIds, (predTree cid).isSome) := by
  constructor
  · exact evaluate_ted_all_missing_error classIds trueTree predTree
  · intro q hok
    by_contra hnone
    push_neg at hnone
    have hall : ∀ cid ∈ classIds, predTree cid = none := by
      intro cid hc
      have hns := hnone cid hc
      cases hcase : predTree cid with
      | none => rfl
      | some pt => rw [hcase] at hns; simp at hns
    have herr := evaluate_ted_all_missing_error classIds trueTree predTree hall
    rw [hok] at herr
    cases herr

/-- Witness for C10: a one-class batch whose predicted file is missing —
the evaluator raises instead of reporting a mean. -/
theorem evaluator_mean_requires_a_distance_witness :
    (∀ cid ∈ ["c1"], (fun (_ : String) => (none : Option ShapeNode)) cid = none) ∧
    evaluate_ted ["c1"] (fun _ => ShapeNode.mk "T" []) (fun _ => none)
      = .error "ZeroDivisionError" :=
  ⟨fun _ _ => rfl,
   (evaluator_mean_requires_a_distance ["c1"] (fun _ => ShapeNode.mk "T" [])
      (fun _ => none)).1 (fun _ _ => rfl)⟩

/-! ### C4 — exactly one retry, degraded schema or terminal failure -/

/-- C4: if the first grammar-engine invocation yields no schema and a
non-empty set of line-tagged errors, the engine is invoked exactly once more
— on the input with the distinct offending lines removed (so exactly one
retry, never a further one, as the call trace shows); if that retry yields a
schema, the conversion succeeds with that degraded schema, and if it fails
too the conversion ends in the terminal failure, returning no partial
schema (the condition spec §7 names `UnrecoverableParseError`). -/
theorem converter_single_retry (σ : Type) (engine : String → Option σ × List Nat)
    (asJson : σ → String) (text : String) (errs : List Nat)
    (hfirst : engine text = (none, errs)) (herrs : errs ≠ []) :
    engineCallTrace engine asJson text = [text, remove_lines text errs.dedup] ∧
    (∀ s, (engine (remove_lines text errs.dedup)).1 = some s →
      shexc_to_shexj engine asJson text
        = .ok (asJson s) (base_uri_parser_helper (remove_lines text errs.dedup))
            (namespaces_parser_helper (remove_lines text errs.dedup))
            (comment_parser_helper (remove_lines text errs.dedup))) ∧
    ((engine (remove_lines text errs.dedup)).1 = none →
      shexc_to_shexj engine asJson text = .failed) := by
  have hempty : errs.isEmpty = false := by
    cases errs with
    | nil => exact absurd rfl herrs
    | cons a l => rfl
  refine ⟨?_, ?_, ?_⟩
  · rw [engineCallTrace, shexc_to_shexjT]
    simp only [hfirst, Option.isNone_none, hempty, Bool.not_false, Bool.and_self, if_true]
    cases hret : (engine (remove_lines text errs.dedup)).1 with
    | some s2 => simp [hret]
    | none => simp [hret]
  · intro s hs
    rw [shexc_to_shexj, shexc_to_shexjT]
    simp only [hfirst, Option.isNone_none, hempty, Bool.not_false, Bool.and_self, if_true]
    simp [hs]
  · intro hs
    rw [shexc_to_shexj, shexc_to_shexjT]
    simp only [hfirst, Option.isNone_none, hempty, Bool.not_false, Bool.and_self, if_true]
    simp [hs]

/-- Witness for C4: a concrete engine failing on line 1 of `exOrigText`; the
trace shows exactly two invocations, the retry's schema is used, and the
twice-failing engine ends in the terminal failure. -/
theorem converter_single_retry_witness :
    exEngine exOrigText = (none, [1]) ∧ ([1] : List Nat) ≠ [] ∧
    engineCallTrace exEngine asJsonU exOrigText
      = [exOrigText, remove_lines exOrigText ([1] : List Nat).dedup] ∧
    shexc_to_shexj exEngine asJsonU exOrigText
      = .ok (asJsonU ())
          (base_uri_parser_helper (remove_lines exOrigText ([1] : List Nat).dedup))
          (namespaces_parser_helper (remove_lines exOrigText ([1] : List Nat).dedup))
          (comment_parser_helper (remove_lines exOrigText ([1] : List Nat).dedup)) ∧
    shexc_to_shexj exEngineFailTwice asJsonU exOrigText = .failed :=
  ⟨by decide, by decide,
   (converter_single_retry Unit exEngine asJsonU exOrigText [1] (by decide) (by decide)).1,
   (converter_single_retry Unit exEngine asJsonU exOrigText [1] (by decide) (by decide)).2.1
      () (by decide),
   (converter_single_retry Unit exEngineFailTwice asJsonU exOrigText [1] (by decide)
      (by decide)).2.2 (by decide)⟩

/-! ### C1 — which text the success-path scans read -/

/-- C1 counterexample: a concrete conversion on which the claim fails.  The
engine rejects `exOrigText` tagging line 1 (the `BASE` declaration) and the
line-stripped retry succeeds, yet the returned base URI is `none` although
scanning the original text yields `some "http://ex/b"` — the scans ran
against the stripped text, not the original. -/
theorem converter_scans_original_counterexample :
    exEngine exOrigText = (none, [1]) ∧
    (exEngine (remove_lines exOrigText ([1] : List Nat).dedup)).1.isSome = true ∧
    base_uri_parser_helper exOrigText = some "http://ex/b" ∧
    (shexc_to_shexj exEngine asJsonU exOrigText).base? = some none := by
  decide

/-- C1 amended: whenever the line-stripped retry succeeds, the comment
extraction, base-URI scan and namespace scan are run against the
*line-stripped* text (so declarations and comments on — or anchored to —
the dropped lines are lost; only the no-retry success path scans the
original text). -/
theorem converter_scans_use_stripped_text (σ : Type)
    (engine : String → Option σ × List Nat) (asJson : σ → String)
    (text : String) (errs : List Nat) (s : σ)
    (hfirst : engine text = (none, errs)) (herrs : errs ≠ [])
    (hretry : (engine (remove_lines text errs.dedup)).1 = some s) :
    shexc_to_shexj engine asJson text
      = .ok (asJson s) (base_uri_parser_helper (remove_lines text errs.dedup))
          (namespaces_parser_helper (remove_lines text errs.dedup))
          (comment_parser_helper (remove_lines text errs.dedup)) := by
  have hempty : errs.isEmpty = false := by
    cases errs with
    | nil => exact absurd rfl herrs
    | cons a l => rfl
  rw [shexc_to_shexj, shexc_to_shexjT]
  simp only [hfirst, Option.isNone_none, hempty, Bool.not_false, Bool.and_self, if_true]
  simp [hretry]

/-- Witness for the amended C1 theorem on the concrete retry-success run. -/
theorem converter_scans_use_stripped_text_witness :
    exEngine exOrigText = (none, [1]) ∧ ([1] : List Nat) ≠ [] ∧
    (exEngine (remove_lines exOrigText ([1] : List Nat).dedup)).1 = some () ∧
    shexc_to_shexj exEngine asJsonU exOrigText
      = .ok (asJsonU ())
          (base_uri_parser_helper (remove_lines exOrigText ([1] : List Nat).dedup))
          (namespaces_parser_helper (remove_lines exOrigText ([1] : List Nat).dedup))
          (comment_parser_helper (remove_lines exOrigText ([1] : List Nat).dedup)) :=
  ⟨by decide, by decide, by decide,
   converter_scans_use_stripped_text Unit exEngine asJsonU exOrigText [1] ()
     (by decide) (by decide) (by decide)⟩

/-! ### C5 — the Comment Reinserter -/

theorem insertIntoLines_no_match (c : CommentRecord) (loc : String) :
    ∀ lines : List String, (∀ l ∈ lines, matchesAnchor l loc = false) →
      insertIntoLines c loc lines = lines
  | [], _ => rfl
  | line :: rest, h => by
    rw [insertIntoLines]
    simp only [h line (List.mem_cons_self line rest), Bool.false_eq_true, if_false]
    rw [insertIntoLines_no_match c loc rest (fun l hl => h l (List.mem_cons_of_mem _ hl))]

theorem insertIntoLines_found (c : CommentRecord) (loc line : String)
    (rest : List String) (hmatch : matchesAnchor line loc = true) :
    ∀ pre : List String, (∀ l ∈ pre, matchesAnchor l loc = false) →
      insertIntoLines c loc (pre ++ line :: rest)
        = pre ++ (match c.type with
            | .general => c.comment :: line :: rest
            | .constraint => (rstripWS line ++ "  " ++ lstripWS c.comment) :: rest)
  | [], _ => by
    rw [List.nil_append, List.nil_append, insertIntoLines]
    rw [hmatch]
    rfl
  | p :: pre, h => by
    rw [List.cons_append, insertIntoLines]
    simp only [h p (List.mem_cons_self p pre), Bool.false_eq_true, if_false]
    rw [insertIntoLines_found c loc line rest hmatch pre
      (fun l hl => h l (List.mem_cons_of_mem _ hl))]
    rw [List.cons_append]

/-- C5: the Comment Reinserter processes the records in reverse document
order over the split line list; a record with the start-of-document sentinel
anchor is inserted as the new line 0; otherwise the *first* line equal to
the anchor — exactly, or after stripping trailing space/`;` characters —
receives the comment, inserted as a new preceding line for a `general`
record or appended inline after two spaces for a `constraint` record; and a
record whose anchor matches no line is dropped without failing. -/
theorem comment_reinserter_behavior (text : String) (cs : List CommentRecord) :
    (cs ≠ [] → insert_comments text (some cs)
      = String.intercalate "\n" (cs.reverse.foldl insertOneComment (pySplit '\n' text))) ∧
    (∀ (c : CommentRecord) (lines : List String), c.location = none →
      insertOneComment lines c = c.comment :: lines) ∧
    (∀ (c : CommentRecord) (loc : String) (lines : List String), c.location = some loc →
      (∀ l ∈ lines, matchesAnchor l loc = false) → insertOneComment lines c = lines) ∧
    (∀ (c : CommentRecord) (loc line : String) (pre rest : List String),
      c.location = some loc → c.type = .general →
      (∀ l ∈ pre, matchesAnchor l loc = false) → matchesAnchor line loc = true →
      insertOneComment (pre ++ line :: rest) c = pre ++ c.comment :: line :: rest) ∧
    (∀ (c : CommentRecord) (loc line : String) (pre rest : List String),
      c.location = some loc → c.type = .constraint →
      (∀ l ∈ pre, matchesAnchor l loc = false) → matchesAnchor line loc = true →
      insertOneComment (pre ++ line :: rest) c
        = pre ++ (rstripWS line ++ "  " ++ lstripWS c.comment) :: rest) := by
  refine ⟨?_, ?_, ?_, ?_, ?_⟩
  · intro hne
    cases cs with
    | nil => exact absurd rfl hne
    | cons c cs => rfl
  · intro c lines hloc
    rw [insertOneComment, hloc]
  · intro c loc lines hloc hno
    rw [insertOneComment, hloc]
    exact insertIntoLines_no_match c loc lines hno
  · intro c loc line pre rest hloc htype hpre hmatch
    rw [insertOneComment, hloc]
    show insertIntoLines c loc (pre ++ line :: rest) = _
    rw [insertIntoLines_found c loc line rest hmatch pre hpre, htype]
  · intro c loc line pre rest hloc htype hpre hmatch
    rw [insertOneComment, hloc]
    show insertIntoLines c loc (pre ++ line :: rest) = _
    rw [insertIntoLines_found c loc line rest hmatch pre hpre, htype]

/-! ### C7 — label-keyed graph merging vs. per-occurrence tree nodes -/

theorem addConstraintToGraph_nodes (k : Option String) (g : SchemaGraph)
    (tc : TripleConstraint) :
    (addConstraintToGraph k g tc).nodes = (k :: tcNodeKeys tc).toFinset ∪ g.nodes := by
  ext x
  simp [addConstraintToGraph, SchemaGraph.addNode, SchemaGraph.addEdge, tcNodeKeys]
  tauto

theorem foldl_addConstraint_nodes_subset (k : Option String) (S : Finset (Option String))
    (hk : k ∈ S) :
    ∀ (tcs : List TripleConstraint) (g : SchemaGraph), g.nodes ⊆ S →
      (∀ tc ∈ tcs, ∀ x ∈ tcNodeKeys tc, x ∈ S) →
      (tcs.foldl (addConstraintToGraph k) g).nodes ⊆ S
  | [], _, hg, _ => hg
  | tc :: tcs, g, hg, hmem => by
    rw [List.foldl_cons]
    apply foldl_addConstraint_nodes_subset k S hk tcs _ ?_
      (fun tc' h' x hx => hmem tc' (List.mem_cons_of_mem _ h') x hx)
    rw [addConstraintToGraph_nodes]
    intro x hx
    rcases Finset.mem_union.mp hx with hl | hg'
    · rcases List.mem_cons.mp (List.mem_toFinset.mp hl) with hxk | hxkeys
      · exact hxk ▸ hk
      · exact hmem tc (List.mem_cons_self tc tcs) x hxkeys
    · exact hg hg'

theorem toFinset_card_lt_of_not_nodup {α : Type} [DecidableEq α] {l : List α}
    (h : ¬ l.Nodup) : l.toFinset.card < l.length := by
  rw [List.card_toFinset]
  have hsub : l.dedup.Sublist l := List.dedup_sublist l
  rcases lt_or_eq_of_le hsub.length_le with hlt | heq
  · exact hlt
  · exact absurd (hsub.eq_of_length heq ▸ l.nodup_dedup) h

theorem length_flatMap_tcNodeKeys :
    ∀ tcs : List TripleConstraint, (tcs.flatMap tcNodeKeys).length = 3 * tcs.length
  | [] => rfl
  | tc :: tcs => by
    rw [List.flatMap_cons, List.length_append, length_flatMap_tcNodeKeys tcs]
    simp [tcNodeKeys]
    ring

theorem sizeList_filterMap_chains :
    ∀ tcs : List TripleConstraint, (∀ tc ∈ tcs, (get_predicate_node_label tc).isSome) →
      ShapeNode.sizeList (tcs.filterMap constraintNodeOf) = 3 * tcs.length
  | [], _ => rfl
  | tc :: tcs, hdet => by
    have hp := hdet tc (List.mem_cons_self tc tcs)
    obtain ⟨p, hp⟩ := Option.isSome_iff_exists.mp hp
    rw [List.filterMap_cons]
    rw [show constraintNodeOf tc = some (constraintChain p (get_node_constraint_node_label tc)
      (get_cardinality_node_label tc)) by rw [constraintNodeOf, hp]; rfl]
    rw [ShapeNode.sizeList_cons,
      sizeList_filterMap_chains tcs (fun t ht => hdet t (List.mem_cons_of_mem _ ht))]
    simp [constraintChain]
    ring

/-- C7 counterexample: a schema whose start shape contains two triple
constraints with identical predicate labels and identical node-constraint
labels, yet the graph's node count is *not* strictly less than the tree's:
a third constraint with an undeterminable predicate label is skipped by the
tree builder (`if not predicate_node: continue`) but the graph builder adds
its `None` predicate key, node-constraint and cardinality nodes
unconditionally — graph 7 nodes, tree 7 nodes, `7 < 7` fails. -/
theorem graph_merges_counterexample :
    tripleConstraintsOf ⟨"S", some (some [⟨some "p", "IRI", "c"⟩, ⟨some "p", "IRI", "c"⟩,
        ⟨none, "A", "B"⟩])⟩
      = [⟨some "p", "IRI", "c"⟩, ⟨some "p", "IRI", "c"⟩, ⟨none, "A", "B"⟩] ∧
    get_shapes_dict exNoMergeGainSchema exNoMergeGainSchema.start
      = some ⟨"S", some (some [⟨some "p", "IRI", "c"⟩, ⟨some "p", "IRI", "c"⟩,
          ⟨none, "A", "B"⟩])⟩ ∧
    get_predicate_node_label ⟨some "p", "IRI", "c"⟩ = some "p" ∧
    get_node_constraint_node_label ⟨some "p", "IRI", "c"⟩ = "IRI" ∧
    (transform_schema_to_graph exNoMergeGainSchema).map (fun r => r.2.nodes.card) = some 7 ∧
    (transform_schema_to_tree exNoMergeGainSchema exNoMergeGainSchema.start).map ShapeNode.size
      = some 7 ∧
    ¬ (7 < 7) := by
  decide

/-- C7 amended: for a schema whose start shape's constraint sequence
contains two triple constraints with identical (determinable) predicate
labels and identical node-constraint labels, *and all of whose constraints
have determinable predicate labels* (an undeterminable one is skipped by
the tree builder but still added to the graph, which the counterexample
shows can erase the gap), the label-keyed graph has strictly fewer nodes
than the tree built for the same schema, because the graph merges equal
labels while the tree keeps one 3-node chain per occurrence. -/
theorem graph_merges_tree_does_not (schema : Schema) (startShape : ShapeDefinition)
    (l1 l2 l3 : List TripleConstraint) (t1 t2 : TripleConstraint)
    (hstart : get_shapes_dict schema schema.start = some startShape)
    (htcs : tripleConstraintsOf startShape = l1 ++ t1 :: l2 ++ t2 :: l3)
    (hdet : ∀ tc ∈ tripleConstraintsOf startShape, (get_predicate_node_label tc).isSome)
    (hpred : get_predicate_node_label t1 = get_predicate_node_label t2)
    (hnc : get_node_constraint_node_label t1 = get_node_constraint_node_label t2) :
    ∃ g t, transform_schema_to_graph schema = some (schema.start, g) ∧
      transform_schema_to_tree schema schema.start = some t ∧
      g.nodes.card < t.size := by
  set tcs := tripleConstraintsOf startShape with htcsdef
  set bigList : List (Option String) := some schema.start :: tcs.flatMap tcNodeKeys
    with hbig
  refine ⟨_, _, by rw [transform_schema_to_graph, hstart]; rfl,
    by rw [transform_schema_to_tree, hstart]; rfl, ?_⟩
  have hsub : ((tripleConstraintsOf startShape).foldl
      (addConstraintToGraph (some schema.start))
      { nodes := {some schema.start}, edges := ∅ }).nodes ⊆ bigList.toFinset := by
    apply foldl_addConstraint_nodes_subset
    · rw [hbig]; exact List.mem_toFinset.mpr (List.mem_cons_self _ _)
    · intro x hx
      rw [Finset.mem_singleton.mp hx, hbig]
      exact List.mem_toFinset.mpr (List.mem_cons_self _ _)
    · intro tc htc x hx
      rw [hbig]
      exact List.mem_toFinset.mpr
        (List.mem_cons_of_mem _ (List.mem_flatMap.mpr ⟨tc, htc, hx⟩))
  have hnotdup : ¬ bigList.Nodup := by
    intro hnodup
    set p := get_predicate_node_label t1 with hp
    have hK1 : tcNodeKeys t1 = p :: [some (get_node_constraint_node_label t1),
        some (get_cardinality_node_label t1)] := rfl
    have hK2 : tcNodeKeys t2 = p :: [some (get_node_constraint_node_label t2),
        some (get_cardinality_node_label t2)] := by
      rw [tcNodeKeys, ← hpred, hp]
    have e2 : [p].Sublist (tcNodeKeys t2 ++ l3.flatMap tcNodeKeys) := by
      rw [hK2]
      exact List.Sublist.trans
        ((List.nil_sublist _).cons₂ p) (List.sublist_append_left _ _)
    have e3 : [p].Sublist (tcNodeKeys t1 ++ l2.flatMap tcNodeKeys) := by
      rw [hK1, List.cons_append]
      exact (List.nil_sublist _).cons₂ p
    have e4 : [p].Sublist (l1.flatMap tcNodeKeys ++ (tcNodeKeys t1 ++ l2.flatMap tcNodeKeys)) :=
      e3.trans (List.sublist_append_right _ _)
    have e5 : [p, p].Sublist bigList := by
      rw [hbig, htcs, List.flatMap_append, List.flatMap_cons, List.flatMap_append,
        List.flatMap_cons]
      exact (e4.append e2).cons _
    have hdup := hnodup.sublist e5
    simp at hdup
  have hcard : ((tripleConstraintsOf startShape).foldl
      (addConstraintToGraph (some schema.start))
      { nodes := {some schema.start}, edges := ∅ }).nodes.card < bigList.length :=
    lt_of_le_of_lt (Finset.card_le_card hsub) (toFinset_card_lt_of_not_nodup hnotdup)
  have hlen : bigList.length = 1 + 3 * tcs.length := by
    rw [hbig, List.length_cons, length_flatMap_tcNodeKeys]
    omega
  have hsize : (ShapeNode.mk schema.start (tcs.filterMap constraintNodeOf)).size
      = 1 + 3 * tcs.length := by
    rw [ShapeNode.size_mk, sizeList_filterMap_chains tcs hdet]
  rw [hsize]
  omega

/-- Witness for C7: the concrete two-identical-constraint schema — the graph
has at most 5 nodes, the tree has 7. -/
theorem graph_merges_tree_does_not_witness :
    get_shapes_dict exMergeSchema exMergeSchema.start
        = some ⟨"S", some (some [⟨some "p", "IRI", "\x7b1,1\x7d"⟩, ⟨some "p", "IRI", "\x7b0,-1\x7d"⟩])⟩ ∧
    (∃ g t, transform_schema_to_graph exMergeSchema = some (exMergeSchema.start, g) ∧
      transform_schema_to_tree exMergeSchema exMergeSchema.start = some t ∧
      g.nodes.card < t.size) :=
  ⟨by decide,
   graph_merges_tree_does_not exMergeSchema
     ⟨"S", some (some [⟨some "p", "IRI", "\x7b1,1\x7d"⟩, ⟨some "p", "IRI", "\x7b0,-1\x7d"⟩])⟩
     [] [] [] ⟨some "p", "IRI", "\x7b1,1\x7d"⟩ ⟨some "p", "IRI", "\x7b0,-1\x7d"⟩
     (by decide) rfl (by decide) rfl rfl⟩

end Shapespresso
